import Mathlib

/-!
Verification of the sprite atlas dumper (sprites/tools/dumppng/main.go).

The development embeds, as executable Lean definitions, the parts of the
program the claims are about: the bounding box scan FindBbox, the shelf
packing and composition loop of processOne, the chunk stream rewriter,
the synthesized metadata chunks, and the worker pool of main. Pixel data
is reduced to per-pixel alpha-nonzeroness, which is the only property of
pixels the program inspects.
-/

namespace Dumppng

/-- A planar point with integer coordinates, after image.Point of the Go
standard library. -/
structure Point where
  X : Int
  Y : Int
deriving DecidableEq, Repr

/-- An axis-aligned rectangle with exclusive Max corner, after
image.Rectangle of the Go standard library. -/
structure Rectangle where
  Min : Point
  Max : Point
deriving DecidableEq, Repr

/-- image.Rectangle.Dx. -/
def Rectangle.Dx (r : Rectangle) : Int := r.Max.X - r.Min.X

/-- image.Rectangle.Dy. -/
def Rectangle.Dy (r : Rectangle) : Int := r.Max.Y - r.Min.Y

/-- image.Rectangle.Empty. -/
def Rectangle.Empty (r : Rectangle) : Bool :=
  decide (r.Min.X ≥ r.Max.X ∨ r.Min.Y ≥ r.Max.Y)

/-- The zero rectangle image.ZR, the value of image.Rect(0, 0, 0, 0). -/
def ZR : Rectangle := ⟨⟨0, 0⟩, ⟨0, 0⟩⟩

/-- Membership of a point in a rectangle (image.Point.In). -/
def inRect (r : Rectangle) (x y : Int) : Prop :=
  r.Min.X ≤ x ∧ x < r.Max.X ∧ r.Min.Y ≤ y ∧ y < r.Max.Y

instance (r : Rectangle) (x y : Int) : Decidable (inRect r x y) := by
  unfold inRect; infer_instance

/-- Boolean form of membership, used inside pixel-level functions. -/
def inRectB (r : Rectangle) (x y : Int) : Bool := decide (inRect r x y)

/-- image.Rectangle.Overlaps: both rectangles nonempty and the four strict
interval conditions. -/
def Rectangle.Overlaps (r s : Rectangle) : Bool :=
  !r.Empty && !s.Empty &&
    decide (r.Min.X < s.Max.X ∧ s.Min.X < r.Max.X ∧ r.Min.Y < s.Max.Y ∧ s.Min.Y < r.Max.Y)

/-- image.Rectangle.Intersect: componentwise max of mins and min of maxes,
collapsed to the zero rectangle when empty. -/
def Rectangle.Intersect (r s : Rectangle) : Rectangle :=
  let t : Rectangle := ⟨⟨max r.Min.X s.Min.X, max r.Min.Y s.Min.Y⟩,
                        ⟨min r.Max.X s.Max.X, min r.Max.Y s.Max.Y⟩⟩
  if t.Empty then ZR else t

/-- Proper nonemptiness of a rectangle: positive width and height. -/
def Rectangle.NonEmpty (r : Rectangle) : Prop := r.Min.X < r.Max.X ∧ r.Min.Y < r.Max.Y

instance (r : Rectangle) : Decidable r.NonEmpty := by
  unfold Rectangle.NonEmpty; infer_instance

/-- Containment of one rectangle in another (image.Rectangle.In). -/
def RectIn (r s : Rectangle) : Prop :=
  s.Min.X ≤ r.Min.X ∧ s.Min.Y ≤ r.Min.Y ∧ r.Max.X ≤ s.Max.X ∧ r.Max.Y ≤ s.Max.Y

instance (r s : Rectangle) : Decidable (RectIn r s) := by
  unfold RectIn; infer_instance

/-- The pixel content of a raster image, reduced to the per-pixel alpha
channel (zero versus non-zero), together with its bounds. The Go values
behind it (the image.Paletted a frame renders to, and the canvas) store
palette indices; the program only ever inspects whether the alpha of a
pixel is non-zero, so the model carries exactly that. -/
structure Raster where
  bounds : Rectangle
  alpha : Int → Int → Bool

/-- The list [lo, lo + 1, ..., lo + n - 1]. -/
def intRange (lo : Int) : Nat → List Int
  | 0 => []
  | n + 1 => lo :: intRange (lo + 1) n

/-- The first element of a list satisfying p, scanning front to back. -/
def firstHit (p : Int → Bool) : List Int → Option Int
  | [] => none
  | x :: xs => if p x then some x else firstHit p xs

/-- One column of the raster holds a pixel with non-zero alpha: the inner
y loop of the left and right scans of FindBbox. -/
def Raster.colOpaque (im : Raster) (x : Int) : Bool :=
  (intRange im.bounds.Min.Y im.bounds.Dy.toNat).any (fun y => im.alpha x y)

/-- One row of the raster holds a pixel with non-zero alpha: the inner
x loop of the top and bottom scans of FindBbox. -/
def Raster.rowOpaque (im : Raster) (y : Int) : Bool :=
  (intRange im.bounds.Min.X im.bounds.Dx.toNat).any (fun x => im.alpha x y)

/-- The ascending edge scan of FindBbox: the first index in [lo, hi)
satisfying p. When none does the Go loop variable is left at hi for a
nonempty range and at its initial value lo for an empty one, hence the
default max lo hi. -/
def scanUp (p : Int → Bool) (lo hi : Int) : Int :=
  match firstHit p (intRange lo (hi - lo).toNat) with
  | some v => v
  | none => max lo hi

/-- The descending edge scan of FindBbox: the last index in [lo, hi)
satisfying p, then incremented once as in the source. When none satisfies
p the Go loop leaves the variable at lo - 1 for a nonempty range and at
hi - 1 for an empty one, hence the default min lo hi - 1. -/
def scanDown (p : Int → Bool) (lo hi : Int) : Int :=
  (match firstHit p (intRange lo (hi - lo).toNat).reverse with
   | some v => v
   | none => min lo hi - 1) + 1

/-- FindBbox (main.go lines 24-85): scan inward from the four edges for
the first row or column holding a pixel with non-zero alpha; right and
bottom are exclusive (found index plus one); if right < left or
bottom < top, the zero rectangle. -/
def FindBbox (im : Raster) : Rectangle :=
  let left := scanUp im.colOpaque im.bounds.Min.X im.bounds.Max.X
  let top := scanUp im.rowOpaque im.bounds.Min.Y im.bounds.Max.Y
  let right := scanDown im.colOpaque im.bounds.Min.X im.bounds.Max.X
  let bottom := scanDown im.rowOpaque im.bounds.Min.Y im.bounds.Max.Y
  if right < left ∨ bottom < top then ZR
  else ⟨⟨left, top⟩, ⟨right, bottom⟩⟩

/-- draw.Draw(dst, r, src, sp, draw.Over) at the alpha level: a
destination pixel is non-transparent afterwards iff it already was, or r
maps it onto a non-transparent source pixel with both points in bounds
(the Go clip of the draw rectangle against both images). Over compositing
only ever adds ink; quantization to the shared palette (the source sets
spriteImg.Palette to the palette of the frame being drawn) is assumed to
preserve alpha-nonzeroness. -/
def drawOver (dst : Raster) (r : Rectangle) (src : Raster) (sp : Point) : Raster :=
  { bounds := dst.bounds
    alpha := fun x y =>
      dst.alpha x y ||
      (inRectB r x y && inRectB dst.bounds x y &&
        inRectB src.bounds (sp.X + (x - r.Min.X)) (sp.Y + (y - r.Min.Y)) &&
        src.alpha (sp.X + (x - r.Min.X)) (sp.Y + (y - r.Min.Y))) }

/-- An entry of a color.Palette. The palette dump type-asserts each entry
to the concrete struct color.RGBA; any other implementation of the
color.Color interface makes that assertion panic (main.go line 186). -/
inductive PColor where
  | rgba (r g b a : Nat)
  | other
deriving DecidableEq, Repr

/-- Whether a palette entry is a concrete color.RGBA value. -/
def PColor.isRGBA : PColor → Bool
  | .rgba _ _ _ _ => true
  | .other => false

/-- Modelled from the spec: a Frame of the sprites package, whose sources
are outside the verified tree. Per the spec (sections 3 and 6) a frame
carries a raster (here, the image MakeImage returns), its color palette,
a delay (an integer) and an action code (a small integer code). -/
structure Frame where
  image : Raster
  Palette : List PColor
  Delay : Int
  Action : Int

/-- Modelled from the spec: an Animation is an ordered sequence of
Frames. -/
structure Animation where
  Frames : List Frame

/-- FrameInfo (main.go lines 87-92). -/
structure FrameInfo where
  BBox : Rectangle
  Origin : Point
  Delay : Int
  Action : Int
deriving DecidableEq, Repr

/-- The canvas rectangle image.Rect(0, 0, 1024, 1024) of processOne. -/
def canvasRect : Rectangle := ⟨⟨0, 0⟩, ⟨1024, 1024⟩⟩

/-- The state of the composition loop of processOne: the packing cursor,
the FrameInfo list, the recorded palette and the canvas. -/
structure CState where
  left : Int
  top : Int
  infos : List FrameInfo
  fullPalette : List PColor
  spriteImg : Raster

/-- The state at the top of processOne (main.go lines 95-100): cursor at
the origin, no infos, empty palette, blank 1024 by 1024 canvas. -/
def initState : CState :=
  { left := 0, top := 0, infos := [], fullPalette := [],
    spriteImg := { bounds := canvasRect, alpha := fun _ _ => false } }

/-- The trimmed bounding box of a frame (main.go line 113). -/
def trimOf (f : Frame) : Rectangle := FindBbox f.image

/-- The cursor position at which the next frame is placed (main.go lines
118-122): on wrap, left becomes 0 and top becomes FindBbox(spriteImg).Max.Y
incremented once. -/
def placeAt (st : CState) (f : Frame) : Int × Int :=
  if st.left + (trimOf f).Dx > st.spriteImg.bounds.Dx then
    (0, (FindBbox st.spriteImg).Max.Y + 1)
  else (st.left, st.top)

/-- The placement rectangle assigned to a frame (main.go line 124). -/
def newRect (st : CState) (f : Frame) : Rectangle :=
  ⟨⟨(placeAt st f).1, (placeAt st f).2⟩,
   ⟨(placeAt st f).1 + (trimOf f).Dx, (placeAt st f).2 + (trimOf f).Dy⟩⟩

/-- The FrameInfo recorded for a frame (main.go lines 106-116 and 124):
origin is half the untrimmed extent minus the trim minimum, with the Go
truncated integer division. -/
def newInfo (st : CState) (f : Frame) : FrameInfo :=
  { BBox := newRect st f
    Origin := ⟨(f.image.bounds.Dx).tdiv 2 - (trimOf f).Min.X,
               (f.image.bounds.Dy).tdiv 2 - (trimOf f).Min.Y⟩
    Delay := f.Delay
    Action := f.Action }

/-- One iteration of the frame loop of processOne (main.go lines 103-130):
record the palette, place the frame, draw it with draw.Over, append the
FrameInfo, and advance the cursor by the trim width plus a one pixel
gap. -/
def stepFrame (st : CState) (f : Frame) : CState :=
  { left := (placeAt st f).1 + (trimOf f).Dx + 1
    top := (placeAt st f).2
    infos := st.infos ++ [newInfo st f]
    fullPalette := f.Palette
    spriteImg := drawOver st.spriteImg (newRect st f) f.image (trimOf f).Min }

/-- The two nested loops over animations and frames (main.go lines
102-131). -/
def composeAnims (st : CState) (anims : List Animation) : CState :=
  anims.foldl (fun s a => a.Frames.foldl stepFrame s) st

/-- The frames of a sprite set in composition order. -/
def flatFrames (anims : List Animation) : List Frame :=
  anims.flatMap Animation.Frames

/-- A chunk of the container stream: type tag and payload. The declared
length of every chunk handled by the program equals its payload length,
so the model identifies the two. -/
structure Chunk where
  ctype : String
  payload : List Nat
deriving DecidableEq, Repr

/-- The termination of the reader side of the chunk stream: a normal end
of stream, or a malformed chunk error. -/
inductive Err where
  | eof
  | malformed (code : Nat)
deriving DecidableEq, Repr

/-- What the chunk rewriting loop does to the output stream: it finishes
normally having written out, or the process panics after writing out. -/
inductive LoopResult where
  | ok (out : List Chunk)
  | panics (out : List Chunk)
deriving DecidableEq, Repr

/-- The per-entry body of the palette dump (main.go lines 185-193): six
bytes r, g, b, a, 255, 255 per entry; none when some entry is not a
color.RGBA and the type assertion panics. -/
def spltEntries : List PColor → Option (List Nat)
  | [] => some []
  | .rgba r g b a :: rest =>
    (spltEntries rest).map (fun t => r :: g :: b :: a :: 255 :: 255 :: t)
  | .other :: _ => none

/-- The keyword and format header of the palette dump chunk: the bytes of
"full", a NUL, and the sample depth byte 8 (main.go lines 182-184). -/
def fullKeyword : List Nat := [102, 117, 108, 108, 0, 8]

/-- The synthesized palette dump chunk, of type sPLT (main.go lines
180-197); none when building it panics. -/
def mkSpltChunk (pal : List PColor) : Option Chunk :=
  (spltEntries pal).map (fun body => { ctype := "sPLT", payload := fullKeyword ++ body })

/-- Little-endian bytes of a Go int16 conversion of v (binary.Write with
binary.LittleEndian at main.go lines 205-210). -/
def i16le (v : Int) : List Nat :=
  [(v % 65536).toNat % 256, (v % 65536).toNat / 256]

/-- The Go uint8 conversion of an integer, as a byte value. -/
def byteOf (v : Int) : Nat := (v % 256).toNat

/-- One record of the control table (main.go lines 204-213): bbox min and
max, origin, each as little-endian int16, then delay and action as single
bytes. -/
def ctrlRecord (fi : FrameInfo) : List Nat :=
  i16le fi.BBox.Min.X ++ i16le fi.BBox.Min.Y ++ i16le fi.BBox.Max.X ++ i16le fi.BBox.Max.Y ++
    i16le fi.Origin.X ++ i16le fi.Origin.Y ++ [byteOf fi.Delay, byteOf fi.Action]

/-- The records of the control table in original frame order. -/
def ctrlRecords (infos : List FrameInfo) : List Nat :=
  infos.flatMap ctrlRecord

/-- The keyword and format header of the control table: the bytes of
"fsctrl", a NUL, and the format byte 255 (main.go lines 201-203). -/
def fsctrlKeyword : List Nat := [102, 115, 99, 116, 114, 108, 0, 255]

/-- The synthesized control table chunk, of type zTXt (main.go lines
199-218). -/
def mkCtrlChunk (infos : List FrameInfo) : Chunk :=
  { ctype := "zTXt", payload := fsctrlKeyword ++ ctrlRecords infos }

/-- The chunk rewriting loop of processOne (main.go lines 166-224). The
reader yields the listed chunks and then the terminal condition. io.EOF
breaks the loop; any other reader error is not returned (the inner if at
lines 168-172 only handles EOF), control falls through and dereferences
the invalid chunk value, modelled as LoopResult.panics. Every chunk read
is written unchanged; after writing a chunk of type tRNS the two
synthesized chunks follow, and building the palette chunk panics when a
palette entry is not a color.RGBA (palChunk = none). Chunk writes and
chunk Close are modelled as succeeding. -/
def rewriteLoop (palChunk : Option Chunk) (ctrl : Chunk) : List Chunk → Err → LoopResult
  | [], .eof => .ok []
  | [], .malformed _ => .panics []
  | c :: rest, t =>
    if c.ctype = "tRNS" then
      match palChunk with
      | none => .panics [c]
      | some p =>
        match rewriteLoop palChunk ctrl rest t with
        | .ok out => .ok (c :: p :: ctrl :: out)
        | .panics out => .panics (c :: p :: ctrl :: out)
    else
      match rewriteLoop palChunk ctrl rest t with
      | .ok out => .ok (c :: out)
      | .panics out => .panics (c :: out)

/-- The outcome of one processOne job: skipped means it returned nil
before creating the output file; ran means the file was created and the
chunk loop ran with the given result. -/
inductive ProcResult where
  | skipped
  | ran (res : LoopResult)
deriving DecidableEq, Repr

/-- processOne (main.go lines 94-231), with png.Encode as a parameter:
encode turns the cropped canvas into the chunk stream the reader yields
(the pipe between the encoding goroutine and the loop is a faithful
streaming handoff of exactly that stream). Compose all frames, crop the
canvas to its bounding box via SubImage; when the cropped bounds have
zero width or height, return before creating the file; otherwise run the
chunk rewriting loop. File creation and writes are modelled as
succeeding. -/
def processOne (encode : Raster → List Chunk × Err) (anims : List Animation) : ProcResult :=
  let st := composeAnims initState anims
  let box := FindBbox st.spriteImg
  let sub := box.Intersect st.spriteImg.bounds
  if sub.Dx = 0 ∨ sub.Dy = 0 then .skipped
  else
    let stream := encode { bounds := sub, alpha := st.spriteImg.alpha }
    .ran (rewriteLoop (mkSpltChunk st.fullPalette) (mkCtrlChunk st.infos) stream.1 stream.2)

/-- The terminal state of the worker pool of main. -/
structure BatchOutcome (α : Type) where
  ran : List α
  firstErr : Option Err
  stranded : List α
deriving DecidableEq, Repr

/-- The worker pool of main (main.go lines 262-284). Workers are
symmetric and the job channel is FIFO, so the pool is represented by its
number of live workers and jobs are consumed in queue order. A worker
whose job errors returns out of its loop and pulls no further job; the
errgroup retains the first error. Jobs left when no live worker remains
are stranded (in the real program, main then blocks forever sending into
the channel). -/
def runBatch {α : Type} (jobErr : α → Option Err) : Nat → List α → BatchOutcome α
  | _, [] => ⟨[], none, []⟩
  | 0, js => ⟨[], none, js⟩
  | w + 1, j :: rest =>
    match jobErr j with
    | none =>
      let r := runBatch jobErr (w + 1) rest
      ⟨j :: r.ran, r.firstErr, r.stranded⟩
    | some e =>
      let r := runBatch jobErr w rest
      ⟨j :: r.ran, some e, r.stranded⟩

/-- The output stream as the spec describes it: every chunk in order, and
the two synthesized chunks as a contiguous pair immediately after each
transparency chunk and nowhere else. -/
def injectedStream (p ctrl : Chunk) (chunks : List Chunk) : List Chunk :=
  chunks.flatMap (fun c => if c.ctype = "tRNS" then [c, p, ctrl] else [c])

/-- A chunk whose type is neither of the two injected types. -/
def notInjectedType (c : Chunk) : Bool :=
  !(c.ctype == "sPLT" || c.ctype == "zTXt")

/-- Decoding of one pair of little-endian bytes as the signed 16-bit
value they represent, the inverse direction of the round trip the spec
asks for. -/
def decodeI16 (b0 b1 : Nat) : Int :=
  if b0 + 256 * b1 ≥ 32768 then (b0 + 256 * b1 : Int) - 65536
  else (b0 + 256 * b1 : Int)

/-- Decoding of the control table records: 14-byte records of six
little-endian signed 16-bit values followed by two single bytes, read
back into FrameInfo values. -/
def decodeRecords : List Nat → Option (List FrameInfo)
  | [] => some []
  | x0 :: x1 :: y0 :: y1 :: X0 :: X1 :: Y0 :: Y1 :: u0 :: u1 :: v0 :: v1 :: d :: a :: rest =>
    (decodeRecords rest).map
      (fun t =>
        { BBox := ⟨⟨decodeI16 x0 x1, decodeI16 y0 y1⟩, ⟨decodeI16 X0 X1, decodeI16 Y0 Y1⟩⟩,
          Origin := ⟨decodeI16 u0 u1, decodeI16 v0 v1⟩,
          Delay := (d : Int), Action := (a : Int) } :: t)
  | _ => none

/-- A value representable as a signed 16-bit integer. -/
def i16Range (v : Int) : Prop := -32768 ≤ v ∧ v < 32768

instance (v : Int) : Decidable (i16Range v) := by
  unfold i16Range; infer_instance

/-- A value representable as an unsigned byte. -/
def byteRange (v : Int) : Prop := 0 ≤ v ∧ v < 256

instance (v : Int) : Decidable (byteRange v) := by
  unfold byteRange; infer_instance

/-- Every field of a FrameInfo fits the width the control table encodes
it with. -/
def FrameInfoInRange (fi : FrameInfo) : Prop :=
  i16Range fi.BBox.Min.X ∧ i16Range fi.BBox.Min.Y ∧
    i16Range fi.BBox.Max.X ∧ i16Range fi.BBox.Max.Y ∧
    i16Range fi.Origin.X ∧ i16Range fi.Origin.Y ∧
    byteRange fi.Delay ∧ byteRange fi.Action

instance (fi : FrameInfo) : Decidable (FrameInfoInRange fi) := by
  unfold FrameInfoInRange; infer_instance

/-- The width and height of a placement rectangle. -/
def dimsOf (fi : FrameInfo) : Int × Int := (fi.BBox.Dx, fi.BBox.Dy)

/-- The width and height of the trimmed bounding box of a frame. -/
def trimDims (f : Frame) : Int × Int := ((trimOf f).Dx, (trimOf f).Dy)

/-- A two entry palette. -/
def palette2 : List PColor := [.rgba 0 0 0 0, .rgba 255 255 255 255]

/-- A 16 by 16 frame whose only pixel with non-zero alpha is (0, 0), with
delay 5 and action 1. -/
def dotFrame16 : Frame :=
  { image := { bounds := ⟨⟨0, 0⟩, ⟨16, 16⟩⟩,
               alpha := fun a b => decide (a = 0) && decide (b = 0) },
    Palette := palette2, Delay := 5, Action := 1 }

/-- One animation of two such frames: the end-to-end input of the spec. -/
def animsTwoDots : List Animation := [⟨[dotFrame16, dotFrame16]⟩]

/-- A frame 1024 wide and 2000 tall, taller than the canvas, whose ink is
its top row and left column. -/
def tallHookFrame : Frame :=
  { image := { bounds := ⟨⟨0, 0⟩, ⟨1024, 2000⟩⟩,
               alpha := fun a b => decide (b = 0) || decide (a = 0) },
    Palette := palette2, Delay := 1, Action := 0 }

/-- A 1 by 1 fully opaque frame. -/
def dotFrame1 : Frame :=
  { image := { bounds := ⟨⟨0, 0⟩, ⟨1, 1⟩⟩, alpha := fun _ _ => true },
    Palette := palette2, Delay := 1, Action := 0 }

/-- A sprite set whose first frame overflows the canvas height. -/
def animsOverflow : List Animation := [⟨[tallHookFrame, dotFrame1]⟩]

/-- A frame filling the canvas exactly, with ink on its top row and left
column. -/
def crossFrame : Frame :=
  { image := { bounds := ⟨⟨0, 0⟩, ⟨1024, 1024⟩⟩,
               alpha := fun a b => decide (b = 0) || decide (a = 0) },
    Palette := palette2, Delay := 1, Action := 0 }

/-- A sprite set that wraps once with the canvas fully inked to row
1023. -/
def animsCross : List Animation := [⟨[crossFrame, dotFrame1]⟩]

/-- A 2 by 2 frame with one opaque pixel and a delay of 300, exceeding a
byte. -/
def delayFrame : Frame :=
  { image := { bounds := ⟨⟨0, 0⟩, ⟨2, 2⟩⟩,
               alpha := fun a b => decide (a = 0) && decide (b = 0) },
    Palette := palette2, Delay := 300, Action := 1 }

/-- A sprite set of that single frame. -/
def animsBigDelay : List Animation := [⟨[delayFrame]⟩]

/-- A 16 by 16 raster whose only pixel with non-zero alpha is (3, 4). -/
def dotRaster34 : Raster :=
  { bounds := ⟨⟨0, 0⟩, ⟨16, 16⟩⟩,
    alpha := fun a b => decide (a = 3) && decide (b = 4) }

/-- The job error function of a batch of boolean jobs: a true job
fails. -/
def boolJobErr (b : Bool) : Option Err := if b then some (.malformed 7) else none

/-- The frame loop of processOne over an already flattened frame list. -/
def runFrames (st : CState) (fs : List Frame) : CState := fs.foldl stepFrame st

/-- The induction invariant of the packing loop: the canvas bounds stay
fixed; every nonempty placement rectangle so far lies above the current
shelf or ends left of the cursor on it; every nonempty placement
rectangle has an inked canvas pixel on its bottom row; and the placement
rectangles are pairwise non-overlapping. -/
def Inv (st : CState) : Prop :=
  st.spriteImg.bounds = canvasRect ∧
  (∀ fi ∈ st.infos, fi.BBox.NonEmpty →
      fi.BBox.Max.Y ≤ st.top ∨ (st.top ≤ fi.BBox.Min.Y ∧ fi.BBox.Max.X < st.left)) ∧
  (∀ fi ∈ st.infos, fi.BBox.NonEmpty →
      ∃ q : Int × Int, inRect fi.BBox q.1 q.2 ∧ inRect canvasRect q.1 q.2 ∧
        st.spriteImg.alpha q.1 q.2 = true ∧ q.2 = fi.BBox.Max.Y - 1) ∧
  (st.infos.map FrameInfo.BBox).Pairwise (fun r s => Rectangle.Overlaps r s = false)

/-- An encoder producing an empty stream, for instantiating theorems. -/
def encodeNone : Raster → List Chunk × Err := fun _ => ([], .eof)

/-- A small reachable-shaped state with a blank 4 by 4 canvas and the
cursor at 4, about to wrap. -/
def smallState : CState :=
  { left := 4, top := 0, infos := [], fullPalette := [],
    spriteImg := { bounds := ⟨⟨0, 0⟩, ⟨4, 4⟩⟩, alpha := fun _ _ => false } }

/-- A palette with one entry that is not a color.RGBA. -/
def badPalette : List PColor := [.rgba 1 2 3 4, .other]

/-- A concrete palette dump chunk for instantiating theorems. -/
def palChunkW : Chunk := ⟨"sPLT", [1, 2]⟩

/-- A concrete control table chunk for instantiating theorems. -/
def ctrlChunkW : Chunk := ⟨"zTXt", [3]⟩

/-- A concrete three chunk input stream with one transparency chunk. -/
def chunksW : List Chunk := [⟨"IHDR", [9]⟩, ⟨"tRNS", [7]⟩, ⟨"IDAT", [5]⟩]

/-- A concrete singleton FrameInfo list with in-range fields. -/
def infosW : List FrameInfo := [⟨⟨⟨0, 0⟩, ⟨1, 1⟩⟩, ⟨1, 1⟩, 5, 1⟩]

/-! ### Facts about the scan primitives -/

theorem mem_intRange {x lo : Int} {n : Nat} :
    x ∈ intRange lo n ↔ lo ≤ x ∧ x < lo + n := by
  induction n generalizing lo with
  | zero => simp [intRange]
  | succ m ih => simp [intRange, List.mem_cons, ih]; omega

theorem intRange_concat (lo : Int) (n : Nat) :
    intRange lo (n + 1) = intRange lo n ++ [lo + n] := by
  induction n generalizing lo with
  | zero => simp [intRange]
  | succ m ih =>
    show lo :: intRange (lo + 1) (m + 1) = (lo :: intRange (lo + 1) m) ++ [lo + (↑(m + 1) : Int)]
    rw [ih (lo + 1)]
    simp only [List.cons_append, List.cons.injEq, true_and]
    congr 2
    push_cast
    ring

theorem firstHit_eq_none {p : Int → Bool} {l : List Int} :
    firstHit p l = none ↔ ∀ x ∈ l, p x = false := by
  induction l with
  | nil => simp [firstHit]
  | cons a l ih =>
    simp only [firstHit]
    by_cases h : p a = true
    · simp [h]
    · have h' : p a = false := by revert h; cases p a <;> simp
      simp [h', ih]

theorem firstHit_some {p : Int → Bool} {l : List Int} {v : Int}
    (h : firstHit p l = some v) : v ∈ l ∧ p v = true := by
  induction l with
  | nil => simp [firstHit] at h
  | cons a l ih =>
    simp only [firstHit] at h
    by_cases ha : p a = true
    · rw [if_pos ha] at h
      injection h with h
      subst h
      exact ⟨List.mem_cons_self a l, ha⟩
    · rw [if_neg ha] at h
      obtain ⟨h1, h2⟩ := ih h
      exact ⟨List.mem_cons_of_mem a h1, h2⟩

theorem firstHit_isSome {p : Int → Bool} {l : List Int} {x : Int}
    (hx : x ∈ l) (hp : p x = true) : ∃ v, firstHit p l = some v := by
  induction l with
  | nil => simp at hx
  | cons a l ih =>
    simp only [firstHit]
    by_cases ha : p a = true
    · exact ⟨a, if_pos ha⟩
    · rw [if_neg ha]
      rcases List.mem_cons.mp hx with rfl | hx'
      · exact absurd hp ha
      · exact ih hx'

theorem firstHit_intRange_le {p : Int → Bool} {lo : Int} {n : Nat} {v : Int}
    (h : firstHit p (intRange lo n) = some v) :
    ∀ x, lo ≤ x → x < lo + n → p x = true → v ≤ x := by
  induction n generalizing lo with
  | zero => simp [intRange, firstHit] at h
  | succ m ih =>
    intro x hx1 hx2 hp
    simp only [intRange, firstHit] at h
    by_cases ha : p lo = true
    · rw [if_pos ha] at h
      injection h with h
      omega
    · rw [if_neg ha] at h
      by_cases hxlo : x = lo
      · subst hxlo; exact absurd hp ha
      · have := ih h x (by omega) (by push_cast at hx2 ⊢; omega) hp
        omega

theorem firstHit_intRange_reverse_ge {p : Int → Bool} {lo : Int} {n : Nat} {v : Int}
    (h : firstHit p (intRange lo n).reverse = some v) :
    ∀ x, lo ≤ x → x < lo + n → p x = true → x ≤ v := by
  induction n generalizing lo with
  | zero => simp [intRange, firstHit] at h
  | succ m ih =>
    intro x hx1 hx2 hp
    rw [intRange_concat, List.reverse_append, List.reverse_cons, List.reverse_nil,
      List.nil_append, List.singleton_append] at h
    simp only [firstHit] at h
    by_cases ha : p (lo + (m : Int)) = true
    · rw [if_pos ha] at h
      injection h with h
      push_cast at hx2
      omega
    · rw [if_neg ha] at h
      by_cases hxm : x = lo + (m : Int)
      · subst hxm; exact absurd hp ha
      · have := ih h x hx1 (by push_cast at hx2 ⊢; omega) hp
        omega

theorem colOpaque_iff {im : Raster} {x : Int} :
    im.colOpaque x = true ↔
      ∃ y, im.bounds.Min.Y ≤ y ∧ y < im.bounds.Max.Y ∧ im.alpha x y = true := by
  unfold Raster.colOpaque
  rw [List.any_eq_true]
  constructor
  · rintro ⟨y, hy, ha⟩
    rw [mem_intRange] at hy
    have hDy := hy.2
    unfold Rectangle.Dy at hDy
    exact ⟨y, hy.1, by omega, ha⟩
  · rintro ⟨y, h1, h2, ha⟩
    exact ⟨y, mem_intRange.mpr ⟨h1, by unfold Rectangle.Dy; omega⟩, ha⟩

theorem rowOpaque_iff {im : Raster} {y : Int} :
    im.rowOpaque y = true ↔
      ∃ x, im.bounds.Min.X ≤ x ∧ x < im.bounds.Max.X ∧ im.alpha x y = true := by
  unfold Raster.rowOpaque
  rw [List.any_eq_true]
  constructor
  · rintro ⟨x, hx, ha⟩
    rw [mem_intRange] at hx
    have hDx := hx.2
    unfold Rectangle.Dx at hDx
    exact ⟨x, hx.1, by omega, ha⟩
  · rintro ⟨x, h1, h2, ha⟩
    exact ⟨x, mem_intRange.mpr ⟨h1, by unfold Rectangle.Dx; omega⟩, ha⟩

theorem scanUp_spec (p : Int → Bool) (lo hi x : Int)
    (hx1 : lo ≤ x) (hx2 : x < hi) (hp : p x = true) :
    scanUp p lo hi ≤ x ∧ lo ≤ scanUp p lo hi ∧ scanUp p lo hi < hi ∧
      p (scanUp p lo hi) = true := by
  unfold scanUp
  have hmem : x ∈ intRange lo (hi - lo).toNat := mem_intRange.mpr ⟨hx1, by omega⟩
  obtain ⟨v, hv⟩ := firstHit_isSome hmem hp
  rw [hv]
  dsimp only
  have hs := firstHit_some hv
  have hvr := mem_intRange.mp hs.1
  exact ⟨firstHit_intRange_le hv x hx1 (by omega) hp, hvr.1, by omega, hs.2⟩

theorem scanDown_spec (p : Int → Bool) (lo hi x : Int)
    (hx1 : lo ≤ x) (hx2 : x < hi) (hp : p x = true) :
    x < scanDown p lo hi ∧ lo < scanDown p lo hi ∧ scanDown p lo hi ≤ hi ∧
      p (scanDown p lo hi - 1) = true := by
  unfold scanDown
  have hmem : x ∈ (intRange lo (hi - lo).toNat).reverse :=
    List.mem_reverse.mpr (mem_intRange.mpr ⟨hx1, by omega⟩)
  obtain ⟨v, hv⟩ := firstHit_isSome hmem hp
  rw [hv]
  dsimp only
  have hs := firstHit_some hv
  have hvr := mem_intRange.mp (List.mem_reverse.mp hs.1)
  have hge := firstHit_intRange_reverse_ge hv x hx1 (by omega) hp
  refine ⟨by omega, by omega, by omega, ?_⟩
  simpa using hs.2

theorem scanUp_none {p : Int → Bool} {lo hi : Int}
    (h : ∀ x, lo ≤ x → x < hi → p x = false) : scanUp p lo hi = max lo hi := by
  unfold scanUp
  have : firstHit p (intRange lo (hi - lo).toNat) = none := by
    rw [firstHit_eq_none]
    intro x hx
    have := mem_intRange.mp hx
    exact h x this.1 (by omega)
  rw [this]

theorem scanDown_none {p : Int → Bool} {lo hi : Int}
    (h : ∀ x, lo ≤ x → x < hi → p x = false) : scanDown p lo hi = min lo hi := by
  unfold scanDown
  have : firstHit p (intRange lo (hi - lo).toNat).reverse = none := by
    rw [firstHit_eq_none]
    intro x hx
    have := mem_intRange.mp (List.mem_reverse.mp hx)
    exact h x this.1 (by omega)
  rw [this]
  show min lo hi - 1 + 1 = min lo hi
  omega

/-! ### Facts about FindBbox -/

theorem FindBbox_def (im : Raster) : FindBbox im =
    if scanDown im.colOpaque im.bounds.Min.X im.bounds.Max.X <
         scanUp im.colOpaque im.bounds.Min.X im.bounds.Max.X ∨
       scanDown im.rowOpaque im.bounds.Min.Y im.bounds.Max.Y <
         scanUp im.rowOpaque im.bounds.Min.Y im.bounds.Max.Y
    then ZR
    else ⟨⟨scanUp im.colOpaque im.bounds.Min.X im.bounds.Max.X,
           scanUp im.rowOpaque im.bounds.Min.Y im.bounds.Max.Y⟩,
          ⟨scanDown im.colOpaque im.bounds.Min.X im.bounds.Max.X,
           scanDown im.rowOpaque im.bounds.Min.Y im.bounds.Max.Y⟩⟩ := rfl

theorem FindBbox_contains {im : Raster} {x y : Int}
    (hin : inRect im.bounds x y) (ha : im.alpha x y = true) :
    inRect (FindBbox im) x y := by
  obtain ⟨hx1, hx2, hy1, hy2⟩ := hin
  have hcol : im.colOpaque x = true := colOpaque_iff.mpr ⟨y, hy1, hy2, ha⟩
  have hrow : im.rowOpaque y = true := rowOpaque_iff.mpr ⟨x, hx1, hx2, ha⟩
  have hL := scanUp_spec _ _ _ _ hx1 hx2 hcol
  have hR := scanDown_spec _ _ _ _ hx1 hx2 hcol
  have hT := scanUp_spec _ _ _ _ hy1 hy2 hrow
  have hB := scanDown_spec _ _ _ _ hy1 hy2 hrow
  rw [FindBbox_def, if_neg (by omega)]
  exact ⟨hL.1, hR.1, hT.1, hB.1⟩

theorem FindBbox_bottomRow {im : Raster} (h : (FindBbox im).NonEmpty) :
    ∃ x, inRect (FindBbox im) x ((FindBbox im).Max.Y - 1) ∧
      inRect im.bounds x ((FindBbox im).Max.Y - 1) ∧
      im.alpha x ((FindBbox im).Max.Y - 1) = true := by
  by_cases hcond : scanDown im.colOpaque im.bounds.Min.X im.bounds.Max.X <
      scanUp im.colOpaque im.bounds.Min.X im.bounds.Max.X ∨
      scanDown im.rowOpaque im.bounds.Min.Y im.bounds.Max.Y <
      scanUp im.rowOpaque im.bounds.Min.Y im.bounds.Max.Y
  · rw [FindBbox_def, if_pos hcond] at h
    exact absurd h (by decide)
  · have hFB : FindBbox im =
        ⟨⟨scanUp im.colOpaque im.bounds.Min.X im.bounds.Max.X,
          scanUp im.rowOpaque im.bounds.Min.Y im.bounds.Max.Y⟩,
         ⟨scanDown im.colOpaque im.bounds.Min.X im.bounds.Max.X,
          scanDown im.rowOpaque im.bounds.Min.Y im.bounds.Max.Y⟩⟩ := by
      rw [FindBbox_def, if_neg hcond]
    rw [hFB] at h
    rw [hFB]
    dsimp only
    obtain ⟨hx, hy⟩ := h
    -- the bottom scan must actually have hit a row
    by_cases hall : ∀ z, im.bounds.Min.Y ≤ z → z < im.bounds.Max.Y → im.rowOpaque z = false
    · exfalso
      have h1 := scanUp_none hall
      have h2 := scanDown_none hall
      have hy' : scanUp im.rowOpaque im.bounds.Min.Y im.bounds.Max.Y <
          scanDown im.rowOpaque im.bounds.Min.Y im.bounds.Max.Y := hy
      rw [h1, h2] at hy'
      exact absurd hy' (not_lt.mpr min_le_max)
    · push_neg at hall
      obtain ⟨z, hz1, hz2, hz3⟩ := hall
      have hz : im.rowOpaque z = true := by revert hz3; cases im.rowOpaque z <;> simp
      have hB := scanDown_spec _ _ _ _ hz1 hz2 hz
      have hbrow : im.rowOpaque
          (scanDown im.rowOpaque im.bounds.Min.Y im.bounds.Max.Y - 1) = true := hB.2.2.2
      obtain ⟨x, hxx1, hxx2, hxa⟩ := rowOpaque_iff.mp hbrow
      have hbin : inRect im.bounds x
          (scanDown im.rowOpaque im.bounds.Min.Y im.bounds.Max.Y - 1) :=
        ⟨hxx1, hxx2, by omega, by omega⟩
      refine ⟨x, ?_, ?_, ?_⟩
      · have h9 := FindBbox_contains hbin hxa
        rw [hFB] at h9
        exact h9
      · exact hbin
      · exact hxa

theorem FindBbox_transparent {im : Raster}
    (hne : im.bounds.NonEmpty)
    (h : ∀ x y, inRect im.bounds x y → im.alpha x y = false) :
    FindBbox im = ZR := by
  have hcol : ∀ x, im.bounds.Min.X ≤ x → x < im.bounds.Max.X → im.colOpaque x = false := by
    intro x h1 h2
    by_contra hc
    have hc' : im.colOpaque x = true := by revert hc; cases im.colOpaque x <;> simp
    obtain ⟨y, hy1, hy2, ha⟩ := colOpaque_iff.mp hc'
    rw [h x y ⟨h1, h2, hy1, hy2⟩] at ha
    exact Bool.false_ne_true ha
  obtain ⟨h1, h2⟩ := hne
  rw [FindBbox_def]
  split
  · rfl
  · rename_i hcond
    exfalso
    rw [scanUp_none hcol, scanDown_none hcol] at hcond
    exact hcond (Or.inl (by omega))

theorem FindBbox_full {im : Raster}
    (hne : im.bounds.NonEmpty)
    (hl : im.colOpaque im.bounds.Min.X = true)
    (hr : im.colOpaque (im.bounds.Max.X - 1) = true)
    (ht : im.rowOpaque im.bounds.Min.Y = true)
    (hb : im.rowOpaque (im.bounds.Max.Y - 1) = true) :
    FindBbox im = im.bounds := by
  obtain ⟨h1, h2⟩ := hne
  have hL := scanUp_spec im.colOpaque im.bounds.Min.X im.bounds.Max.X im.bounds.Min.X
    (le_refl _) h1 hl
  have hR := scanDown_spec im.colOpaque im.bounds.Min.X im.bounds.Max.X
    (im.bounds.Max.X - 1) (by omega) (by omega) hr
  have hT := scanUp_spec im.rowOpaque im.bounds.Min.Y im.bounds.Max.Y im.bounds.Min.Y
    (le_refl _) h2 ht
  have hB := scanDown_spec im.rowOpaque im.bounds.Min.Y im.bounds.Max.Y
    (im.bounds.Max.Y - 1) (by omega) (by omega) hb
  have e1 : scanUp im.colOpaque im.bounds.Min.X im.bounds.Max.X = im.bounds.Min.X := by omega
  have e2 : scanDown im.colOpaque im.bounds.Min.X im.bounds.Max.X = im.bounds.Max.X := by omega
  have e3 : scanUp im.rowOpaque im.bounds.Min.Y im.bounds.Max.Y = im.bounds.Min.Y := by omega
  have e4 : scanDown im.rowOpaque im.bounds.Min.Y im.bounds.Max.Y = im.bounds.Max.Y := by omega
  rw [FindBbox_def]
  split
  · rename_i hcond
    exfalso
    rw [e1, e2, e3, e4] at hcond
    omega
  · rw [e1, e2, e3, e4]

theorem FindBbox_dims_nonneg (im : Raster) :
    0 ≤ (FindBbox im).Dx ∧ 0 ≤ (FindBbox im).Dy := by
  rw [FindBbox_def]
  split
  · simp [ZR, Rectangle.Dx, Rectangle.Dy]
  · rename_i hcond
    unfold Rectangle.Dx Rectangle.Dy
    dsimp only
    omega

/-! ### Facts about the composition loop -/

theorem stepFrame_spriteImg_bounds (st : CState) (f : Frame) :
    (stepFrame st f).spriteImg.bounds = st.spriteImg.bounds := rfl

theorem stepFrame_infos (st : CState) (f : Frame) :
    (stepFrame st f).infos = st.infos ++ [newInfo st f] := rfl

theorem newInfo_BBox (st : CState) (f : Frame) :
    (newInfo st f).BBox = newRect st f := rfl

theorem stepFrame_alpha_mono (st : CState) (f : Frame) {x y : Int}
    (h : st.spriteImg.alpha x y = true) :
    (stepFrame st f).spriteImg.alpha x y = true := by
  show (st.spriteImg.alpha x y || _) = true
  rw [h, Bool.true_or]

theorem runFrames_nil (st : CState) : runFrames st [] = st := rfl

theorem runFrames_cons (st : CState) (f : Frame) (fs : List Frame) :
    runFrames st (f :: fs) = runFrames (stepFrame st f) fs := rfl

theorem runFrames_bounds (fs : List Frame) (st : CState) :
    (runFrames st fs).spriteImg.bounds = st.spriteImg.bounds := by
  induction fs generalizing st with
  | nil => rfl
  | cons f fs ih => rw [runFrames_cons, ih, stepFrame_spriteImg_bounds]

theorem runFrames_infos_mono (fs : List Frame) (st : CState) :
    ∃ l, (runFrames st fs).infos = st.infos ++ l := by
  induction fs generalizing st with
  | nil => exact ⟨[], by simp [runFrames_nil]⟩
  | cons f fs ih =>
    obtain ⟨l, hl⟩ := ih (stepFrame st f)
    refine ⟨newInfo st f :: l, ?_⟩
    rw [runFrames_cons, hl, stepFrame_infos]
    simp

theorem composeAnims_eq_runFrames (anims : List Animation) (st : CState) :
    composeAnims st anims = runFrames st (flatFrames anims) := by
  induction anims generalizing st with
  | nil => rfl
  | cons a rest ih =>
    show composeAnims (a.Frames.foldl stepFrame st) rest = _
    rw [ih]
    show runFrames (runFrames st a.Frames) (flatFrames rest) = _
    unfold flatFrames
    rw [List.flatMap_cons]
    unfold runFrames
    rw [List.foldl_append]

theorem newRect_Dx (st : CState) (f : Frame) : (newRect st f).Dx = (trimOf f).Dx := by
  unfold newRect Rectangle.Dx
  dsimp only
  ring

theorem newRect_Dy (st : CState) (f : Frame) : (newRect st f).Dy = (trimOf f).Dy := by
  unfold newRect Rectangle.Dy
  dsimp only
  ring

theorem newRect_nonEmpty_iff (st : CState) (f : Frame) :
    (newRect st f).NonEmpty ↔ (trimOf f).NonEmpty := by
  unfold newRect Rectangle.NonEmpty
  dsimp only
  unfold Rectangle.Dx Rectangle.Dy
  omega

theorem Overlaps_false_of_empty_left (r s : Rectangle) (h : ¬ r.NonEmpty) :
    Rectangle.Overlaps r s = false := by
  unfold Rectangle.Overlaps Rectangle.Empty
  unfold Rectangle.NonEmpty at h
  have hd : decide (r.Min.X ≥ r.Max.X ∨ r.Min.Y ≥ r.Max.Y) = true := by
    rw [decide_eq_true_eq]
    omega
  rw [hd]
  simp

theorem Overlaps_false_of_empty_right (r s : Rectangle) (h : ¬ s.NonEmpty) :
    Rectangle.Overlaps r s = false := by
  unfold Rectangle.Overlaps Rectangle.Empty
  unfold Rectangle.NonEmpty at h
  have hd : decide (s.Min.X ≥ s.Max.X ∨ s.Min.Y ≥ s.Max.Y) = true := by
    rw [decide_eq_true_eq]
    omega
  rw [hd]
  simp

theorem Overlaps_false_of_le_y (r s : Rectangle) (h : r.Max.Y ≤ s.Min.Y) :
    Rectangle.Overlaps r s = false := by
  unfold Rectangle.Overlaps
  have hd : decide (r.Min.X < s.Max.X ∧ s.Min.X < r.Max.X ∧
      r.Min.Y < s.Max.Y ∧ s.Min.Y < r.Max.Y) = false := by
    rw [decide_eq_false_iff_not]
    omega
  rw [hd]
  simp

theorem Overlaps_false_of_le_x (r s : Rectangle) (h : r.Max.X ≤ s.Min.X) :
    Rectangle.Overlaps r s = false := by
  unfold Rectangle.Overlaps
  have hd : decide (r.Min.X < s.Max.X ∧ s.Min.X < r.Max.X ∧
      r.Min.Y < s.Max.Y ∧ s.Min.Y < r.Max.Y) = false := by
    rw [decide_eq_false_iff_not]
    omega
  rw [hd]
  simp

theorem Inv_init : Inv initState := by
  refine ⟨rfl, ?_, ?_, ?_⟩ <;> simp [initState]

theorem Inv_step (st : CState) (f : Frame) (hInv : Inv st)
    (hfit : (newRect st f).NonEmpty → RectIn (newRect st f) canvasRect) :
    Inv (stepFrame st f) := by
  obtain ⟨hbounds, hclass, hink, hpair⟩ := hInv
  have htrim_nonneg : 0 ≤ (trimOf f).Dx ∧ 0 ≤ (trimOf f).Dy := FindBbox_dims_nonneg f.image
  -- placement rectangles already drawn end at or above the canvas ink
  have htopM : ∀ fi ∈ st.infos, fi.BBox.NonEmpty →
      fi.BBox.Max.Y ≤ (FindBbox st.spriteImg).Max.Y := by
    intro fi hfi hne
    obtain ⟨q, hq1, hq2, hq3, hq4⟩ := hink fi hfi hne
    have hqin : inRect st.spriteImg.bounds q.1 q.2 := by rw [hbounds]; exact hq2
    obtain ⟨-, -, -, h4⟩ := FindBbox_contains hqin hq3
    omega
  -- key classification of the old rectangles against the new cursor
  have hkey : ∀ fi ∈ st.infos, fi.BBox.NonEmpty →
      fi.BBox.Max.Y ≤ (placeAt st f).2 ∨
        ((placeAt st f).2 ≤ fi.BBox.Min.Y ∧ fi.BBox.Max.X < (placeAt st f).1) := by
    intro fi hfi hne
    unfold placeAt
    by_cases hw : st.left + (trimOf f).Dx > st.spriteImg.bounds.Dx
    · rw [if_pos hw]
      dsimp only
      have := htopM fi hfi hne
      omega
    · rw [if_neg hw]
      dsimp only
      exact hclass fi hfi hne
  -- an inked pixel on the bottom row of the new rectangle
  have hinkNew : (newRect st f).NonEmpty →
      ∃ q : Int × Int, inRect (newRect st f) q.1 q.2 ∧ inRect canvasRect q.1 q.2 ∧
        (stepFrame st f).spriteImg.alpha q.1 q.2 = true ∧
        q.2 = (newRect st f).Max.Y - 1 := by
    intro hne
    have htrim : (FindBbox f.image).NonEmpty := (newRect_nonEmpty_iff st f).mp hne
    have hbr : ∃ z, inRect (trimOf f) z ((trimOf f).Max.Y - 1) ∧
        inRect f.image.bounds z ((trimOf f).Max.Y - 1) ∧
        f.image.alpha z ((trimOf f).Max.Y - 1) = true := FindBbox_bottomRow htrim
    obtain ⟨z, hin_trim, hin_b, halpha⟩ := hbr
    obtain ⟨a1, a2, a3, a4⟩ := hin_trim
    have hDpos : (trimOf f).Min.X < (trimOf f).Max.X ∧ (trimOf f).Min.Y < (trimOf f).Max.Y :=
      htrim
    have hq1 : inRect (newRect st f)
        ((placeAt st f).1 + (z - (trimOf f).Min.X))
        ((placeAt st f).2 + ((trimOf f).Max.Y - 1 - (trimOf f).Min.Y)) := by
      unfold newRect inRect Rectangle.Dx Rectangle.Dy
      dsimp only
      refine ⟨by omega, by omega, by omega, by omega⟩
    have hq2 : inRect canvasRect
        ((placeAt st f).1 + (z - (trimOf f).Min.X))
        ((placeAt st f).2 + ((trimOf f).Max.Y - 1 - (trimOf f).Min.Y)) := by
      have hfitN := hfit hne
      unfold RectIn at hfitN
      unfold newRect Rectangle.Dx Rectangle.Dy canvasRect at hfitN
      dsimp only at hfitN
      unfold inRect canvasRect
      dsimp only
      refine ⟨by omega, by omega, by omega, by omega⟩
    refine ⟨((placeAt st f).1 + (z - (trimOf f).Min.X),
             (placeAt st f).2 + ((trimOf f).Max.Y - 1 - (trimOf f).Min.Y)), hq1, hq2, ?_, ?_⟩
    · show (st.spriteImg.alpha _ _ ||
        (inRectB (newRect st f) _ _ && inRectB st.spriteImg.bounds _ _ &&
          inRectB f.image.bounds _ _ && f.image.alpha _ _)) = true
      have hsrc1 : (trimOf f).Min.X +
          ((placeAt st f).1 + (z - (trimOf f).Min.X) - (newRect st f).Min.X) = z := by
        show (trimOf f).Min.X + ((placeAt st f).1 + (z - (trimOf f).Min.X) -
          (placeAt st f).1) = z
        ring
      have hsrc2 : (trimOf f).Min.Y +
          ((placeAt st f).2 + ((trimOf f).Max.Y - 1 - (trimOf f).Min.Y) -
            (newRect st f).Min.Y) = (trimOf f).Max.Y - 1 := by
        show (trimOf f).Min.Y + ((placeAt st f).2 +
          ((trimOf f).Max.Y - 1 - (trimOf f).Min.Y) - (placeAt st f).2) =
          (trimOf f).Max.Y - 1
        ring
      rw [hsrc1, hsrc2]
      have e1 : inRectB (newRect st f)
          ((placeAt st f).1 + (z - (trimOf f).Min.X))
          ((placeAt st f).2 + ((trimOf f).Max.Y - 1 - (trimOf f).Min.Y)) = true :=
        decide_eq_true hq1
      have e2 : inRectB st.spriteImg.bounds
          ((placeAt st f).1 + (z - (trimOf f).Min.X))
          ((placeAt st f).2 + ((trimOf f).Max.Y - 1 - (trimOf f).Min.Y)) = true := by
        unfold inRectB
        rw [hbounds]
        exact decide_eq_true hq2
      have e3 : inRectB f.image.bounds z ((trimOf f).Max.Y - 1) = true :=
        decide_eq_true hin_b
      rw [e1, e2, e3, halpha]
      simp
    · show (placeAt st f).2 + ((trimOf f).Max.Y - 1 - (trimOf f).Min.Y) =
        (placeAt st f).2 + (trimOf f).Dy - 1
      unfold Rectangle.Dy
      ring
  refine ⟨?_, ?_, ?_, ?_⟩
  · rw [stepFrame_spriteImg_bounds]
    exact hbounds
  · -- classification for the new state
    intro fi hfi hne
    rw [stepFrame_infos] at hfi
    rcases List.mem_append.mp hfi with hold | hnew
    · rcases hkey fi hold hne with h | h
      · left
        exact h
      · right
        refine ⟨h.1, ?_⟩
        show fi.BBox.Max.X < (placeAt st f).1 + (trimOf f).Dx + 1
        omega
    · have : fi = newInfo st f := by simpa using hnew
      subst this
      right
      constructor
      · show (placeAt st f).2 ≤ (placeAt st f).2
        exact le_refl _
      · show (placeAt st f).1 + (trimOf f).Dx < (placeAt st f).1 + (trimOf f).Dx + 1
        omega
  · -- inked bottom rows for the new state
    intro fi hfi hne
    rw [stepFrame_infos] at hfi
    rcases List.mem_append.mp hfi with hold | hnew
    · obtain ⟨q, hq1, hq2, hq3, hq4⟩ := hink fi hold hne
      exact ⟨q, hq1, hq2, stepFrame_alpha_mono st f hq3, hq4⟩
    · have : fi = newInfo st f := by simpa using hnew
      subst this
      exact hinkNew hne
  · -- pairwise disjointness for the new state
    rw [stepFrame_infos, List.map_append]
    rw [List.pairwise_append]
    refine ⟨hpair, by simp, ?_⟩
    intro r hr s hs
    simp only [List.map_cons, List.map_nil, List.mem_singleton] at hs
    subst hs
    obtain ⟨fi, hfi, rfl⟩ := List.mem_map.mp hr
    by_cases hrne : fi.BBox.NonEmpty
    · by_cases hNne : (newRect st f).NonEmpty
      · rcases hkey fi hfi hrne with h | h
        · exact Overlaps_false_of_le_y fi.BBox (newInfo st f).BBox h
        · exact Overlaps_false_of_le_x fi.BBox (newInfo st f).BBox (le_of_lt h.2)
      · exact Overlaps_false_of_empty_right fi.BBox (newInfo st f).BBox hNne
    · exact Overlaps_false_of_empty_left fi.BBox (newInfo st f).BBox hrne

theorem runFrames_inv (fs : List Frame) (st : CState) (hInv : Inv st)
    (hfit : ∀ fi ∈ (runFrames st fs).infos, fi.BBox.NonEmpty → RectIn fi.BBox canvasRect) :
    Inv (runFrames st fs) := by
  induction fs generalizing st with
  | nil => exact hInv
  | cons f fs ih =>
    rw [runFrames_cons] at hfit ⊢
    refine ih (stepFrame st f) ?_ hfit
    refine Inv_step st f hInv ?_
    intro hne
    have hmem : newInfo st f ∈ (runFrames (stepFrame st f) fs).infos := by
      obtain ⟨l, hl⟩ := runFrames_infos_mono fs (stepFrame st f)
      rw [hl, stepFrame_infos]
      simp
    exact hfit _ hmem hne

theorem runFrames_dims (fs : List Frame) (st : CState) :
    (runFrames st fs).infos.map dimsOf = st.infos.map dimsOf ++ fs.map trimDims := by
  induction fs generalizing st with
  | nil => simp [runFrames_nil]
  | cons f fs ih =>
    rw [runFrames_cons, ih, stepFrame_infos]
    simp [dimsOf, trimDims, newInfo_BBox, newRect_Dx, newRect_Dy]

/-! ### Facts about the chunk rewriting loop -/

theorem rewriteLoop_eof (p ctrl : Chunk) (chunks : List Chunk) :
    rewriteLoop (some p) ctrl chunks Err.eof = .ok (injectedStream p ctrl chunks) := by
  induction chunks with
  | nil => rfl
  | cons c rest ih =>
    simp only [rewriteLoop, injectedStream, List.flatMap_cons] at ih ⊢
    rw [ih]
    by_cases hc : c.ctype = "tRNS"
    · simp [hc]
    · simp [hc]

theorem sublist_injectedStream (p ctrl : Chunk) (chunks : List Chunk) :
    chunks.Sublist (injectedStream p ctrl chunks) := by
  induction chunks with
  | nil => simp [injectedStream]
  | cons c rest ih =>
    unfold injectedStream
    rw [List.flatMap_cons]
    by_cases hc : c.ctype = "tRNS"
    · rw [if_pos hc]
      exact List.Sublist.cons₂ c (List.Sublist.cons p (List.Sublist.cons ctrl ih))
    · rw [if_neg hc]
      exact List.Sublist.cons₂ c ih

theorem filter_injectedStream (p ctrl : Chunk) (chunks : List Chunk)
    (hp : p.ctype = "sPLT") (hctrl : ctrl.ctype = "zTXt")
    (hclean : ∀ c ∈ chunks, notInjectedType c = true) :
    (injectedStream p ctrl chunks).filter notInjectedType = chunks := by
  induction chunks with
  | nil => rfl
  | cons c rest ih =>
    have hcnot : notInjectedType c = true := hclean c (List.mem_cons_self c rest)
    have hrest : ∀ x ∈ rest, notInjectedType x = true :=
      fun x hx => hclean x (List.mem_cons_of_mem c hx)
    have hpn : notInjectedType p = false := by
      unfold notInjectedType
      rw [hp]
      rfl
    have hcn : notInjectedType ctrl = false := by
      unfold notInjectedType
      rw [hctrl]
      rfl
    unfold injectedStream at ih ⊢
    rw [List.flatMap_cons]
    by_cases hc : c.ctype = "tRNS"
    · rw [if_pos hc]
      simp only [List.cons_append, List.nil_append, List.filter_cons, hcnot, hpn, hcn,
        if_true, if_false, Bool.false_eq_true, ite_false, ite_true]
      rw [ih hrest]
    · rw [if_neg hc]
      simp only [List.cons_append, List.nil_append, List.filter_cons, hcnot,
        if_true, ite_true]
      rw [ih hrest]

theorem rewriteLoop_malformed_nil (pal : Option Chunk) (ctrl : Chunk) (n : Nat) :
    rewriteLoop pal ctrl [] (Err.malformed n) = .panics [] := rfl

theorem rewriteLoop_panics_on_bad_palette (pal : List PColor) (ctrl tc : Chunk)
    (rest : List Chunk) (t : Err) (hbad : mkSpltChunk pal = none)
    (htc : tc.ctype = "tRNS") :
    rewriteLoop (mkSpltChunk pal) ctrl (tc :: rest) t = .panics [tc] := by
  rw [hbad]
  simp only [rewriteLoop]
  rw [if_pos htc]

/-! ### Facts about the synthesized chunk payloads -/

theorem spltEntries_none (pal : List PColor) (h : ∃ c ∈ pal, c.isRGBA = false) :
    spltEntries pal = none := by
  induction pal with
  | nil =>
    obtain ⟨c, hc, -⟩ := h
    exact absurd hc (List.not_mem_nil c)
  | cons a rest ih =>
    obtain ⟨c, hc, hbad⟩ := h
    rcases List.mem_cons.mp hc with rfl | hcr
    · cases c with
      | rgba r g b a => simp [PColor.isRGBA] at hbad
      | other => rfl
    · cases a with
      | rgba r g b a =>
        show (spltEntries rest).map _ = none
        rw [ih ⟨c, hcr, hbad⟩]
        rfl
      | other => rfl

theorem decodeI16_i16le (v : Int) (h : i16Range v) :
    decodeI16 ((v % 65536).toNat % 256) ((v % 65536).toNat / 256) = v := by
  unfold i16Range at h
  unfold decodeI16
  split <;> omega

theorem decodeRecords_cons (x0 x1 y0 y1 X0 X1 Y0 Y1 u0 u1 v0 v1 d a : Nat)
    (rest : List Nat) :
    decodeRecords (x0 :: x1 :: y0 :: y1 :: X0 :: X1 :: Y0 :: Y1 ::
        u0 :: u1 :: v0 :: v1 :: d :: a :: rest) =
      (decodeRecords rest).map
        (fun t =>
          { BBox := ⟨⟨decodeI16 x0 x1, decodeI16 y0 y1⟩,
                    ⟨decodeI16 X0 X1, decodeI16 Y0 Y1⟩⟩,
            Origin := ⟨decodeI16 u0 u1, decodeI16 v0 v1⟩,
            Delay := (d : Int), Action := (a : Int) } :: t) := rfl

theorem decodeRecords_append (fi : FrameInfo) (h : FrameInfoInRange fi)
    (rest : List Nat) (t : List FrameInfo) (ih : decodeRecords rest = some t) :
    decodeRecords (ctrlRecord fi ++ rest) = some (fi :: t) := by
  obtain ⟨h1, h2, h3, h4, h5, h6, h7, h8⟩ := h
  simp only [ctrlRecord, i16le, byteOf, List.append_assoc, List.cons_append,
    List.nil_append]
  rw [decodeRecords_cons]
  rw [ih]
  simp only [Option.map_some']
  congr 1
  have e1 := decodeI16_i16le _ h1
  have e2 := decodeI16_i16le _ h2
  have e3 := decodeI16_i16le _ h3
  have e4 := decodeI16_i16le _ h4
  have e5 := decodeI16_i16le _ h5
  have e6 := decodeI16_i16le _ h6
  have e7 : ((fi.Delay % 256).toNat : Int) = fi.Delay := by
    unfold byteRange at h7
    omega
  have e8 : ((fi.Action % 256).toNat : Int) = fi.Action := by
    unfold byteRange at h8
    omega
  rw [e1, e2, e3, e4, e5, e6, e7, e8]

theorem decodeRecords_roundtrip (infos : List FrameInfo)
    (h : ∀ fi ∈ infos, FrameInfoInRange fi) :
    decodeRecords (ctrlRecords infos) = some infos := by
  induction infos with
  | nil => rfl
  | cons fi rest ih =>
    unfold ctrlRecords
    rw [List.flatMap_cons]
    exact decodeRecords_append fi (h fi (List.mem_cons_self fi rest)) _ _
      (ih (fun x hx => h x (List.mem_cons_of_mem fi hx)))

/-! ### A symbolic evaluation of one wrapping run -/

theorem drawOver_alpha (dst : Raster) (r : Rectangle) (src : Raster) (sp : Point)
    (x y : Int) :
    (drawOver dst r src sp).alpha x y =
      (dst.alpha x y ||
        (inRectB r x y && inRectB dst.bounds x y &&
          inRectB src.bounds (sp.X + (x - r.Min.X)) (sp.Y + (y - r.Min.Y)) &&
          src.alpha (sp.X + (x - r.Min.X)) (sp.Y + (y - r.Min.Y)))) := rfl

theorem hookRunFacts (f : Frame) (H : Int) (hH : 1024 ≤ H)
    (hbounds : f.image.bounds = ⟨⟨0, 0⟩, ⟨1024, H⟩⟩)
    (halpha : ∀ a b : Int, f.image.alpha a b = (decide (b = 0) || decide (a = 0))) :
    (composeAnims initState [⟨[f, dotFrame1]⟩]).infos.map FrameInfo.BBox =
      [⟨⟨0, 0⟩, ⟨1024, H⟩⟩, ⟨⟨0, 1025⟩, ⟨1, 1026⟩⟩] ∧
    FindBbox (stepFrame initState f).spriteImg = canvasRect ∧
    (stepFrame initState f).left + (trimOf dotFrame1).Dx >
      (stepFrame initState f).spriteImg.bounds.Dx := by
  -- the trimmed bounding box of the hook frame is its full bounds
  have hne : f.image.bounds.NonEmpty := by
    rw [hbounds]
    exact ⟨by show (0 : Int) < 1024; norm_num, by show (0 : Int) < H; omega⟩
  have hl : f.image.colOpaque f.image.bounds.Min.X = true := by
    refine colOpaque_iff.mpr ⟨0, ?_, ?_, ?_⟩
    · rw [hbounds]
    · rw [hbounds]; show (0 : Int) < H; omega
    · rw [halpha]; simp
  have hr : f.image.colOpaque (f.image.bounds.Max.X - 1) = true := by
    refine colOpaque_iff.mpr ⟨0, ?_, ?_, ?_⟩
    · rw [hbounds]
    · rw [hbounds]; show (0 : Int) < H; omega
    · rw [halpha]; simp
  have ht : f.image.rowOpaque f.image.bounds.Min.Y = true := by
    refine rowOpaque_iff.mpr ⟨0, ?_, ?_, ?_⟩
    · rw [hbounds]
    · rw [hbounds]; show (0 : Int) < 1024; norm_num
    · rw [halpha]; simp
  have hb : f.image.rowOpaque (f.image.bounds.Max.Y - 1) = true := by
    refine rowOpaque_iff.mpr ⟨0, ?_, ?_, ?_⟩
    · rw [hbounds]
    · rw [hbounds]; show (0 : Int) < 1024; norm_num
    · rw [halpha]; simp
  have htrimOf : trimOf f = ⟨⟨0, 0⟩, ⟨1024, H⟩⟩ :=
    ((FindBbox_full hne hl hr ht hb).trans hbounds)
  -- placing the hook frame does not wrap
  have hcond1 : ¬(initState.left + (trimOf f).Dx > initState.spriteImg.bounds.Dx) := by
    rw [htrimOf]
    show ¬((0 : Int) + ((1024 : Int) - 0) > (1024 : Int) - 0)
    norm_num
  have hplace1 : placeAt initState f = (0, 0) := by
    unfold placeAt
    rw [if_neg hcond1]
    rfl
  have hN1 : newRect initState f = ⟨⟨0, 0⟩, ⟨1024, H⟩⟩ := by
    unfold newRect
    rw [hplace1, htrimOf]
    show (⟨⟨0, 0⟩, ⟨0 + ((1024 : Int) - 0), 0 + (H - 0)⟩⟩ : Rectangle) = _
    have ex : (0 : Int) + ((1024 : Int) - 0) = 1024 := by norm_num
    have ey : (0 : Int) + (H - 0) = H := by ring
    rw [ex, ey]
  -- the canvas as drawn after the hook frame
  have hstep1 : (stepFrame initState f).spriteImg =
      drawOver initState.spriteImg (newRect initState f) f.image (trimOf f).Min := rfl
  have hpt : ∀ x y : Int, 0 ≤ x → x < 1024 → 0 ≤ y → y < 1024 → (y = 0 ∨ x = 0) →
      (stepFrame initState f).spriteImg.alpha x y = true := by
    intro x y hx1 hx2 hy1 hy2 hxy
    rw [hstep1, drawOver_alpha]
    have e0 : initState.spriteImg.alpha x y = false := rfl
    rw [e0, Bool.false_or]
    have e1 : inRectB (newRect initState f) x y = true := by
      unfold inRectB
      rw [hN1]
      exact decide_eq_true ⟨hx1, hx2, hy1, by show y < H; omega⟩
    have e2 : inRectB initState.spriteImg.bounds x y = true := by
      unfold inRectB
      show decide (inRect canvasRect x y) = true
      refine decide_eq_true ?_
      unfold inRect canvasRect
      exact ⟨hx1, hx2, hy1, hy2⟩
    have hsrc1 : (trimOf f).Min.X + (x - (newRect initState f).Min.X) = x := by
      rw [htrimOf, hN1]
      show (0 : Int) + (x - 0) = x
      ring
    have hsrc2 : (trimOf f).Min.Y + (y - (newRect initState f).Min.Y) = y := by
      rw [htrimOf, hN1]
      show (0 : Int) + (y - 0) = y
      ring
    rw [hsrc1, hsrc2]
    have e3 : inRectB f.image.bounds x y = true := by
      unfold inRectB
      rw [hbounds]
      exact decide_eq_true ⟨hx1, hx2, hy1, by show y < H; omega⟩
    have e4 : f.image.alpha x y = true := by
      rw [halpha]
      rcases hxy with rfl | rfl
      · simp
      · simp
    rw [e1, e2, e3, e4]
    rfl
  have hcb : (stepFrame initState f).spriteImg.bounds = canvasRect := rfl
  have hcanvas : FindBbox (stepFrame initState f).spriteImg = canvasRect := by
    refine (FindBbox_full ?_ ?_ ?_ ?_ ?_).trans hcb
    · exact (by decide : canvasRect.NonEmpty)
    · refine colOpaque_iff.mpr ⟨0, ?_, ?_, ?_⟩
      · show (0 : Int) ≤ 0; norm_num
      · show (0 : Int) < 1024; norm_num
      · exact hpt 0 0 (by norm_num) (by norm_num) (by norm_num) (by norm_num) (Or.inl rfl)
    · refine colOpaque_iff.mpr ⟨0, ?_, ?_, ?_⟩
      · show (0 : Int) ≤ 0; norm_num
      · show (0 : Int) < 1024; norm_num
      · exact hpt (1024 - 1) 0 (by norm_num) (by norm_num) (by norm_num) (by norm_num)
          (Or.inl rfl)
    · refine rowOpaque_iff.mpr ⟨0, ?_, ?_, ?_⟩
      · show (0 : Int) ≤ 0; norm_num
      · show (0 : Int) < 1024; norm_num
      · exact hpt 0 0 (by norm_num) (by norm_num) (by norm_num) (by norm_num) (Or.inl rfl)
    · refine rowOpaque_iff.mpr ⟨0, ?_, ?_, ?_⟩
      · show (0 : Int) ≤ 0; norm_num
      · show (0 : Int) < 1024; norm_num
      · exact hpt 0 (1024 - 1) (by norm_num) (by norm_num) (by norm_num) (by norm_num)
          (Or.inr rfl)
  -- the cursor after the hook frame, and the wrap of the dot frame
  have hleft1 : (stepFrame initState f).left = 1025 := by
    show (placeAt initState f).1 + (trimOf f).Dx + 1 = 1025
    rw [hplace1, htrimOf]
    show (0 : Int) + ((1024 : Int) - 0) + 1 = 1025
    norm_num
  have htrimDot : trimOf dotFrame1 = ⟨⟨0, 0⟩, ⟨1, 1⟩⟩ := by decide
  have hwrap2 : (stepFrame initState f).left + (trimOf dotFrame1).Dx >
      (stepFrame initState f).spriteImg.bounds.Dx := by
    rw [hleft1, htrimDot]
    show (1025 : Int) + ((1 : Int) - 0) > (1024 : Int) - 0
    norm_num
  have hplace2 : placeAt (stepFrame initState f) dotFrame1 = (0, 1025) := by
    unfold placeAt
    rw [if_pos hwrap2, hcanvas]
    show ((0 : Int), (1024 : Int) + 1) = ((0 : Int), (1025 : Int))
    have ex : (1024 : Int) + 1 = 1025 := by norm_num
    rw [ex]
  have hN2 : newRect (stepFrame initState f) dotFrame1 = ⟨⟨0, 1025⟩, ⟨1, 1026⟩⟩ := by
    unfold newRect
    rw [hplace2, htrimDot]
    show (⟨⟨0, 1025⟩, ⟨0 + ((1 : Int) - 0), 1025 + ((1 : Int) - 0)⟩⟩ : Rectangle) = _
    have ex : (0 : Int) + ((1 : Int) - 0) = 1 := by norm_num
    have ey : (1025 : Int) + ((1 : Int) - 0) = 1026 := by norm_num
    rw [ex, ey]
  have hinfos : (composeAnims initState [⟨[f, dotFrame1]⟩]).infos =
      [newInfo initState f, newInfo (stepFrame initState f) dotFrame1] := rfl
  refine ⟨?_, hcanvas, hwrap2⟩
  rw [hinfos]
  simp only [List.map_cons, List.map_nil, newInfo_BBox]
  rw [hN1, hN2]

/-! ### Facts about the worker pool -/

theorem runBatch_allok {α : Type} (jobErr : α → Option Err) (w : Nat) (js : List α)
    (hw : 1 ≤ w) (h : ∀ j ∈ js, jobErr j = none) :
    runBatch jobErr w js = ⟨js, none, []⟩ := by
  induction js with
  | nil => cases w <;> rfl
  | cons j rest ih =>
    obtain ⟨w', rfl⟩ : ∃ w', w = w' + 1 := ⟨w - 1, by omega⟩
    show runBatch jobErr (w' + 1) (j :: rest) = _
    simp only [runBatch]
    rw [h j (List.mem_cons_self j rest)]
    rw [ih (fun x hx => h x (List.mem_cons_of_mem j hx))]

theorem runBatch_one_failure {α : Type} (jobErr : α → Option Err) (w : Nat)
    (pre post : List α) (bad : α) (e : Err) (hw : 2 ≤ w) (hbad : jobErr bad = some e)
    (hok : ∀ j ∈ pre ++ post, jobErr j = none) :
    runBatch jobErr w (pre ++ bad :: post) = ⟨pre ++ bad :: post, some e, []⟩ := by
  induction pre with
  | nil =>
    obtain ⟨w', rfl⟩ : ∃ w', w = w' + 1 := ⟨w - 1, by omega⟩
    show runBatch jobErr (w' + 1) (bad :: post) = _
    simp only [runBatch]
    rw [hbad]
    rw [runBatch_allok jobErr w' post (by omega)
      (fun j hj => hok j (by simpa using hj))]
    rfl
  | cons j pre ih =>
    obtain ⟨w', rfl⟩ : ∃ w', w = w' + 1 := ⟨w - 1, by omega⟩
    show runBatch jobErr (w' + 1) (j :: (pre ++ bad :: post)) = _
    simp only [runBatch]
    rw [hok j (by simp)]
    rw [ih (fun x hx => hok x (by simp at hx ⊢; tauto))]
    rfl

theorem composeAnims_bounds (anims : List Animation) :
    (composeAnims initState anims).spriteImg.bounds = canvasRect := by
  rw [composeAnims_eq_runFrames, runFrames_bounds]
  rfl

/-! ## The claims -/

/-- C1: for every input chunk stream read to a normal end of stream, the
rewriting loop writes every input chunk unchanged (type, length and
payload are the chunk value itself) in unchanged relative order, and
emits the two synthesized chunks as a contiguous pair immediately after
each transparency chunk and nowhere else: the output equals
injectedStream, which interleaves exactly the pair after each tRNS chunk;
the input is an order-preserving sublist of the output; and for streams
free of the two injected chunk types (png.Encode emits neither),
filtering those types out of the output recovers the input exactly. -/
theorem c1 (p ctrl : Chunk) (chunks : List Chunk)
    (hp : p.ctype = "sPLT") (hctrl : ctrl.ctype = "zTXt")
    (hclean : ∀ c ∈ chunks, notInjectedType c = true) :
    rewriteLoop (some p) ctrl chunks Err.eof = .ok (injectedStream p ctrl chunks) ∧
    chunks.Sublist (injectedStream p ctrl chunks) ∧
    (injectedStream p ctrl chunks).filter notInjectedType = chunks :=
  ⟨rewriteLoop_eof p ctrl chunks, sublist_injectedStream p ctrl chunks,
    filter_injectedStream p ctrl chunks hp hctrl hclean⟩

/-- C1 witness: the theorem at a concrete three chunk stream. -/
theorem c1_witness :
    rewriteLoop (some palChunkW) ctrlChunkW chunksW Err.eof =
      .ok (injectedStream palChunkW ctrlChunkW chunksW) ∧
    chunksW.Sublist (injectedStream palChunkW ctrlChunkW chunksW) ∧
    (injectedStream palChunkW ctrlChunkW chunksW).filter notInjectedType = chunksW :=
  c1 palChunkW ctrlChunkW chunksW rfl rfl (by decide)

/-- C2 as amended: unconditionally, every FrameInfo placement rectangle
has exactly the width and height of the trimmed bounding box of its
source frame, in original frame order; and provided every nonempty
placement rectangle assigned during the run lies within the canvas
bounds, no two placement rectangles of a sprite set overlap. The
proviso on the overlap half is forced by the counterexample: a frame
taller than the canvas draws clipped, so the wrap cursor can land
inside an earlier rectangle. -/
theorem c2 (anims : List Animation) :
    (composeAnims initState anims).infos.map dimsOf =
      (flatFrames anims).map trimDims ∧
    ((∀ fi ∈ (composeAnims initState anims).infos,
        fi.BBox.NonEmpty → RectIn fi.BBox canvasRect) →
      ((composeAnims initState anims).infos.map FrameInfo.BBox).Pairwise
        (fun r s => Rectangle.Overlaps r s = false)) := by
  rw [composeAnims_eq_runFrames]
  constructor
  · rw [runFrames_dims]
    rfl
  · intro hfit
    exact (runFrames_inv (flatFrames anims) initState Inv_init hfit).2.2.2

/-- C2 witness: the theorem at the concrete two frame sprite set, with
the canvas-fit side condition of the overlap half discharged by
evaluation. -/
theorem c2_witness :
    (composeAnims initState animsTwoDots).infos.map dimsOf =
      (flatFrames animsTwoDots).map trimDims ∧
    ((composeAnims initState animsTwoDots).infos.map FrameInfo.BBox).Pairwise
        (fun r s => Rectangle.Overlaps r s = false) :=
  ⟨(c2 animsTwoDots).1, (c2 animsTwoDots).2 (by decide)⟩

/-- C2 counterexample: a first frame 1024 wide and 2000 tall (taller than
the canvas) is placed at rectangle [0,0)x[1024,2000); its drawn ink is
clipped to the canvas, so on the wrap the recomputed top is 1025 and the
second frame is placed at [0,1025)x[1,1026), strictly inside the first
rectangle: the two placement rectangles produced by processOne
overlap. -/
theorem c2_counterexample :
    (composeAnims initState animsOverflow).infos.map FrameInfo.BBox =
      [⟨⟨0, 0⟩, ⟨1024, 2000⟩⟩, ⟨⟨0, 1025⟩, ⟨1, 1026⟩⟩] ∧
    Rectangle.Overlaps ⟨⟨0, 0⟩, ⟨1024, 2000⟩⟩ ⟨⟨0, 1025⟩, ⟨1, 1026⟩⟩ = true :=
  ⟨(hookRunFacts tallHookFrame 2000 (by norm_num) rfl (fun a b => rfl)).1, by decide⟩

/-- C3: the loop treats end of stream as normal termination, but a
non-EOF reader error is not returned: the inner error check at main.go
lines 168-172 only breaks on io.EOF, so on a malformed chunk error
control falls through and uses the invalid chunk value, which panics
instead of aborting the job with the error. -/
theorem c3_behavior (pal : Option Chunk) (ctrl : Chunk) (n : Nat) :
    rewriteLoop pal ctrl [] (Err.malformed n) = .panics [] ∧
    rewriteLoop pal ctrl [] Err.eof = .ok [] :=
  ⟨rfl, rfl⟩

/-- C4 as amended: whenever the cursor wraps (left plus frame width
exceeds the canvas width), the frame is placed with left 0 and top equal
to FindBbox(canvas).Max.Y + 1, that is one past the exclusive bottom of
the canvas bounding box, hence two past the index of the bottommost
opaque row when the canvas has ink (one blank row of separation), and 1
on a blank canvas. The claim said one past that index, which is
FindBbox(canvas).Max.Y itself. -/
theorem c4 (st : CState) (f : Frame)
    (hwrap : st.left + (trimOf f).Dx > st.spriteImg.bounds.Dx) :
    (stepFrame st f).infos = st.infos ++ [newInfo st f] ∧
    (newInfo st f).BBox.Min.X = 0 ∧
    (newInfo st f).BBox.Min.Y = (FindBbox st.spriteImg).Max.Y + 1 := by
  refine ⟨stepFrame_infos st f, ?_, ?_⟩
  · show (placeAt st f).1 = 0
    unfold placeAt
    rw [if_pos hwrap]
  · show (placeAt st f).2 = _
    unfold placeAt
    rw [if_pos hwrap]

/-- C4 witness: the theorem at a small wrapping state. -/
theorem c4_witness :
    (stepFrame smallState dotFrame1).infos =
      smallState.infos ++ [newInfo smallState dotFrame1] ∧
    (newInfo smallState dotFrame1).BBox.Min.X = 0 ∧
    (newInfo smallState dotFrame1).BBox.Min.Y =
      (FindBbox smallState.spriteImg).Max.Y + 1 :=
  c4 smallState dotFrame1 (by decide)

/-- C4 counterexample: after a full canvas cross frame the canvas
bounding box is the whole canvas, so the bottommost opaque row is 1023
and one past it is 1024 = canvasRect.Max.Y; yet when the next frame
wraps, the placement recorded by processOne has top 1025, not 1024. -/
theorem c4_counterexample :
    (composeAnims initState animsCross).infos.map FrameInfo.BBox =
      [⟨⟨0, 0⟩, ⟨1024, 1024⟩⟩, ⟨⟨0, 1025⟩, ⟨1, 1026⟩⟩] ∧
    FindBbox (stepFrame initState crossFrame).spriteImg = canvasRect ∧
    (stepFrame initState crossFrame).left + (trimOf dotFrame1).Dx >
      (stepFrame initState crossFrame).spriteImg.bounds.Dx ∧
    (1025 : Int) ≠ canvasRect.Max.Y := by
  have h := hookRunFacts crossFrame 1024 (by norm_num) rfl (fun a b => rfl)
  exact ⟨h.1, h.2.1, h.2.2, by decide⟩

/-- C5 as amended: provided every stored value fits the width the
control table encodes it with (coordinates in signed 16 bit range, delay
and action in one unsigned byte), decoding the control table records
reproduces the FrameInfo list exactly, in order. The proviso is forced
by the counterexample: a delay of 300 is truncated to one byte. -/
theorem c5 (infos : List FrameInfo) (h : ∀ fi ∈ infos, FrameInfoInRange fi) :
    decodeRecords (ctrlRecords infos) = some infos :=
  decodeRecords_roundtrip infos h

/-- C5 witness: the theorem at a concrete in-range FrameInfo list. -/
theorem c5_witness : decodeRecords (ctrlRecords infosW) = some infosW :=
  c5 infosW (by decide)

/-- C5 counterexample: a sprite set whose single frame has delay 300
composes to a FrameInfo list whose control table records do not decode
back to the stored values (the delay byte holds 300 mod 256 = 44). -/
theorem c5_counterexample :
    decodeRecords (ctrlRecords (composeAnims initState animsBigDelay).infos) ≠
      some (composeAnims initState animsBigDelay).infos := by decide

/-- C6 as amended: the end-to-end two frame sprite set yields two
FrameInfo entries with unit bounding boxes, placement rectangles
[0,0)x[1,1) and [2,0)x[3,1), and a control table payload of exactly
2 * 14 = 28 bytes after the 8 byte keyword and format header (each
record is six 2-byte values plus two single bytes, 14 bytes, not 9). -/
theorem c6 :
    (composeAnims initState animsTwoDots).infos =
      [{ BBox := ⟨⟨0, 0⟩, ⟨1, 1⟩⟩, Origin := ⟨8, 8⟩, Delay := 5, Action := 1 },
       { BBox := ⟨⟨2, 0⟩, ⟨3, 1⟩⟩, Origin := ⟨8, 8⟩, Delay := 5, Action := 1 }] ∧
    ((mkCtrlChunk (composeAnims initState animsTwoDots).infos).payload.drop 8).length
      = 28 := by
  constructor
  · decide
  · decide

/-- C6 counterexample: the control table payload after the keyword and
format header is 28 bytes for the two frame input, not the 26 the claim
states. -/
theorem c6_counterexample :
    ((mkCtrlChunk (composeAnims initState animsTwoDots).infos).payload.drop 8).length
      = 28 ∧ (28 : Nat) ≠ 26 := by
  constructor
  · decide
  · decide

/-- C7 as amended: provided at least two workers run, when exactly one
job fails every other job still runs to completion, the first (only)
job error is retained and reported once the queue is drained, and no job
is stranded. The proviso is forced by the counterexample: with a single
worker, the failing worker returns out of its loop and the jobs behind
the failing one never run. -/
theorem c7 {α : Type} (jobErr : α → Option Err) (w : Nat) (pre post : List α)
    (bad : α) (e : Err) (hw : 2 ≤ w) (hbad : jobErr bad = some e)
    (hok : ∀ j ∈ pre ++ post, jobErr j = none) :
    runBatch jobErr w (pre ++ bad :: post) = ⟨pre ++ bad :: post, some e, []⟩ :=
  runBatch_one_failure jobErr w pre post bad e hw hbad hok

/-- C7 witness: the theorem at a three job batch with two workers. -/
theorem c7_witness :
    runBatch boolJobErr 2 ([false] ++ true :: [false]) =
      ⟨[false] ++ true :: [false], some (Err.malformed 7), []⟩ :=
  c7 boolJobErr 2 [false] [false] true (Err.malformed 7) (by norm_num) rfl (by decide)

/-- C7 counterexample: with one worker (runtime.NumCPU() can be 1) and
the first of two jobs failing, the second job never runs: it is left
stranded, contradicting that every other job still runs to
completion. -/
theorem c7_counterexample :
    runBatch boolJobErr 1 [true, false] =
      ⟨[true], some (Err.malformed 7), [false]⟩ ∧
    ([false] : List Bool) ≠ [] := by
  constructor
  · decide
  · decide

/-- C8: for every raster with exactly one pixel of non-zero alpha, at
in-bounds coordinates (x, y), FindBbox returns the unit rectangle with
min corner (x, y) and max corner (x + 1, y + 1). -/
theorem c8 (im : Raster) (x y : Int) (hin : inRect im.bounds x y)
    (hone : ∀ a b : Int, inRect im.bounds a b →
        im.alpha a b = (decide (a = x) && decide (b = y))) :
    FindBbox im = ⟨⟨x, y⟩, ⟨x + 1, y + 1⟩⟩ := by
  obtain ⟨hx1, hx2, hy1, hy2⟩ := hin
  have halx : im.alpha x y = true := by
    rw [hone x y ⟨hx1, hx2, hy1, hy2⟩]
    simp
  have hcolx : im.colOpaque x = true := colOpaque_iff.mpr ⟨y, hy1, hy2, halx⟩
  have hrowy : im.rowOpaque y = true := rowOpaque_iff.mpr ⟨x, hx1, hx2, halx⟩
  have hcol_only : ∀ a, im.bounds.Min.X ≤ a → a < im.bounds.Max.X →
      im.colOpaque a = true → a = x := by
    intro a h1 h2 hc
    obtain ⟨b, hb1, hb2, hab⟩ := colOpaque_iff.mp hc
    rw [hone a b ⟨h1, h2, hb1, hb2⟩] at hab
    simp only [Bool.and_eq_true, decide_eq_true_eq] at hab
    exact hab.1
  have hrow_only : ∀ b, im.bounds.Min.Y ≤ b → b < im.bounds.Max.Y →
      im.rowOpaque b = true → b = y := by
    intro b h1 h2 hc
    obtain ⟨a, ha1, ha2, hab⟩ := rowOpaque_iff.mp hc
    rw [hone a b ⟨ha1, ha2, h1, h2⟩] at hab
    simp only [Bool.and_eq_true, decide_eq_true_eq] at hab
    exact hab.2
  have hL := scanUp_spec im.colOpaque im.bounds.Min.X im.bounds.Max.X x hx1 hx2 hcolx
  have hR := scanDown_spec im.colOpaque im.bounds.Min.X im.bounds.Max.X x hx1 hx2 hcolx
  have hT := scanUp_spec im.rowOpaque im.bounds.Min.Y im.bounds.Max.Y y hy1 hy2 hrowy
  have hB := scanDown_spec im.rowOpaque im.bounds.Min.Y im.bounds.Max.Y y hy1 hy2 hrowy
  have eL : scanUp im.colOpaque im.bounds.Min.X im.bounds.Max.X = x :=
    hcol_only _ hL.2.1 hL.2.2.1 hL.2.2.2
  have eR : scanDown im.colOpaque im.bounds.Min.X im.bounds.Max.X = x + 1 := by
    have := hcol_only (scanDown im.colOpaque im.bounds.Min.X im.bounds.Max.X - 1)
      (by omega) (by omega) hR.2.2.2
    omega
  have eT : scanUp im.rowOpaque im.bounds.Min.Y im.bounds.Max.Y = y :=
    hrow_only _ hT.2.1 hT.2.2.1 hT.2.2.2
  have eB : scanDown im.rowOpaque im.bounds.Min.Y im.bounds.Max.Y = y + 1 := by
    have := hrow_only (scanDown im.rowOpaque im.bounds.Min.Y im.bounds.Max.Y - 1)
      (by omega) (by omega) hB.2.2.2
    omega
  rw [FindBbox_def]
  split
  · rename_i hcond
    exfalso
    rw [eL, eR, eT, eB] at hcond
    omega
  · rw [eL, eR, eT, eB]

/-- C8 witness: the theorem at a 16 by 16 raster with one opaque pixel
at (3, 4). -/
theorem c8_witness : FindBbox dotRaster34 = ⟨⟨3, 4⟩, ⟨4, 5⟩⟩ :=
  c8 dotRaster34 3 4 (by decide) (fun a b h => rfl)

/-- C9: for every sprite set whose composed canvas has no pixel of
non-zero alpha, processOne returns without error before creating the
output file: the cropped bounding box is the zero rectangle and the job
is skipped. -/
theorem c9 (encode : Raster → List Chunk × Err) (anims : List Animation)
    (h : ∀ x y : Int, inRect (composeAnims initState anims).spriteImg.bounds x y →
        (composeAnims initState anims).spriteImg.alpha x y = false) :
    processOne encode anims = ProcResult.skipped := by
  have hb : (composeAnims initState anims).spriteImg.bounds = canvasRect :=
    composeAnims_bounds anims
  have hcne : (composeAnims initState anims).spriteImg.bounds.NonEmpty := by
    rw [hb]
    exact ⟨by show (0 : Int) < 1024; norm_num, by show (0 : Int) < 1024; norm_num⟩
  have hz : FindBbox (composeAnims initState anims).spriteImg = ZR :=
    FindBbox_transparent hcne h
  unfold processOne
  simp only [hz, hb]
  rw [if_pos (Or.inl (by decide : (Rectangle.Intersect ZR canvasRect).Dx = 0))]

/-- C9 witness: the theorem at the empty sprite set, whose canvas stays
blank. -/
theorem c9_witness : processOne encodeNone [] = ProcResult.skipped :=
  c9 encodeNone [] (fun _ _ _ => rfl)

/-- C10: if any entry of the recorded palette is not a concrete
color.RGBA value, building the palette dump chunk panics (the unchecked
type assertion fails), so any call of processOne that reaches the
metadata injection point, that is, writes a transparency chunk, panics
rather than completing. -/
theorem c10 (pal : List PColor) (h : ∃ c ∈ pal, c.isRGBA = false) :
    mkSpltChunk pal = none ∧
    ∀ (ctrl tc : Chunk) (rest : List Chunk) (t : Err), tc.ctype = "tRNS" →
      rewriteLoop (mkSpltChunk pal) ctrl (tc :: rest) t = .panics [tc] := by
  have hnone : mkSpltChunk pal = none := by
    unfold mkSpltChunk
    rw [spltEntries_none pal h]
    rfl
  exact ⟨hnone, fun ctrl tc rest t htc =>
    rewriteLoop_panics_on_bad_palette pal ctrl tc rest t hnone htc⟩

/-- C10 witness: the theorem at a palette with a non RGBA entry and a
stream whose first chunk is the transparency chunk. -/
theorem c10_witness :
    mkSpltChunk badPalette = none ∧
    rewriteLoop (mkSpltChunk badPalette) ctrlChunkW [⟨"tRNS", []⟩] Err.eof =
      .panics [⟨"tRNS", []⟩] := by
  have h := c10 badPalette (by decide)
  exact ⟨h.1, h.2 ctrlChunkW ⟨"tRNS", []⟩ [] Err.eof rfl⟩

end Dumppng
